import Mathlib

/-!
Shallow embedding of `src/main.rs` of the Github-tui dotfile browser.

The program has two parts:
* `find_dotfiles` (the Dotfile Locator): reads `$HOME`, lists the depth-1
  dot-entries of the home directory and all descendants of `<home>/.config`.
* `App` / `run` / `main` (the Interactive Session): a selection state
  machine driven by keyboard events with a render step per iteration.

Filesystem traversal (the `walkdir` crate), terminal I/O and the keyboard
are external collaborators; they are modelled by explicit data (a directory
tree with per-entry accessibility flags, a per-iteration draw result, and a
list of input events).  Paths are modelled as lists of components; joining
components with "/" mirrors how the source builds paths with `format!` and
`PathBuf::push`.  `usize` arithmetic is modelled on `Nat` with an explicit
`% 2 ^ 64` where the source can wrap (release-profile semantics of Rust
overflow; debug builds panic at the same spot).
-/

namespace GithubTui

/-! ## Definitions: the embedding of the program, spec-side
descriptions for the refinement claims, and concrete states used to
evaluate the theorems. -/

def USIZE : Nat := 2  ^ 64


def usizeSub1 (n : Nat) : Nat := (n + (USIZE - 1)) % USIZE


inductive Dirent
  | file (name : String) (ok : Bool)
  | dir (name : String) (ok : Bool) (children : List Dirent)


def Dirent.name : Dirent → String
  | .file n _ => n
  | .dir n _ _ => n


def Dirent.ok : Dirent → Bool
  | .file _ o => o
  | .dir _ o _ => o


def walkList (pre : List String) : List Dirent → List (List String)
  | [] => []
  | .file n ok :: rest =>
      (if ok then [pre ++ [n]] else []) ++ walkList pre rest
  | .dir n ok cs :: rest =>
      (if ok then (pre ++ [n]) :: walkList (pre ++ [n]) cs else []) ++
        walkList pre rest


inductive IoErrorKind
  | notFound
  | permissionDenied
  | other
  deriving DecidableEq, Repr


structure Fs where
  homeEnv : Option String
  homeChildren : List Dirent


def startsWithDot (s : String) : Bool := s.data.head? == some '.'


def homeDotfiles (home : String) (cs : List Dirent) : List (List String) :=
  ((cs.filter (fun e => e.ok)).filter (fun e => startsWithDot e.name)).map
    (fun e => [home, e.name])


def configEntries (home : String) (cs : List Dirent) : List (List String) :=
  match cs.find? (fun e => e.name == ".config") with
  | some (Dirent.dir n true gcs) => walkList [home, n] gcs
  | _ => []


def find_dotfiles (fs : Fs) : Except IoErrorKind (List (List String)) :=
  match fs.homeEnv with
  | none => .error IoErrorKind.notFound
  | some home_dir =>
      .ok (homeDotfiles home_dir fs.homeChildren ++
        configEntries home_dir fs.homeChildren)


def descList (pre : List String) : List Dirent → List (List String)
  | [] => []
  | .file n _ :: rest => (pre ++ [n]) :: descList pre rest
  | .dir n _ cs :: rest =>
      ((pre ++ [n]) :: descList (pre ++ [n]) cs) ++ descList pre rest


def specDotChildren (home : String) (cs : List Dirent) : List (List String) :=
  (cs.filter (fun e => startsWithDot e.name)).map (fun e => [home, e.name])


def specConfigDescendants (home : String) (cs : List Dirent) :
    List (List String) :=
  match cs.find? (fun e => e.name == ".config") with
  | some (Dirent.dir n _ gcs) => descList [home, n] gcs
  | _ => []


def allOkList : List Dirent → Bool
  | [] => true
  | .file _ ok :: rest => ok && allOkList rest
  | .dir _ ok cs :: rest => ok && allOkList cs && allOkList rest


def pruneErr : List Dirent → List Dirent
  | [] => []
  | .file n ok :: rest =>
      (if ok then [Dirent.file n true] else []) ++ pruneErr rest
  | .dir n ok cs :: rest =>
      (if ok then [Dirent.dir n true (pruneErr cs)] else []) ++ pruneErr rest


def Dirent.deepOk : Dirent → Bool
  | .file _ ok => ok
  | .dir _ ok cs => ok && allOkList cs


def fsScenario : Fs :=
  { homeEnv := some "/home/user"
    homeChildren :=
      [ Dirent.file ".bashrc" true
      , Dirent.file "notes.txt" true
      , Dirent.dir ".config" true
          [ Dirent.dir "app" true [ Dirent.file "config.toml" true ] ] ] }


def fsWithErrors : Fs :=
  { homeEnv := some "/home/user"
    homeChildren :=
      [ Dirent.file ".bashrc" true
      , Dirent.dir ".cache" false [ Dirent.file "junk" true ]
      , Dirent.dir ".config" true
          [ Dirent.file "secret" false, Dirent.file "app.toml" true ] ] }


def fsNoConfig : Fs :=
  { homeEnv := some "/home/user"
    homeChildren := [ Dirent.file ".bashrc" true, Dirent.file "notes.txt" true ] }


structure ListState where
  selected : Option Nat
  deriving DecidableEq, Repr


structure App where
  dotfiles : List (List String)
  list_state : ListState
  deriving DecidableEq, Repr


def App.new (fs : Fs) : Except IoErrorKind App :=
  match find_dotfiles fs with
  | .error e => .error e
  | .ok dotfiles => .ok { dotfiles := dotfiles, list_state := { selected := some 0 } }


inductive KeyCode
  | char (c : Char)
  | down
  | up
  | other
  deriving DecidableEq, Repr


inductive LoopEvent
  | timeout
  | nonKey
  | key (k : KeyCode)
  deriving DecidableEq, Repr


def stepEvent (app : App) (ev : LoopEvent) : Option App :=
  match ev with
  | .timeout => some app
  | .nonKey => some app
  | .key k =>
    match k with
    | .char c => if c = 'q' then none else some app
    | .down =>
        some (match app.list_state.selected with
          | some selected =>
              if selected < usizeSub1 app.dotfiles.length then
                { app with list_state := { selected := some ((selected + 1) % USIZE) } }
              else app
          | none => app)
    | .up =>
        some (match app.list_state.selected with
          | some selected =>
              if selected > 0 then
                { app with list_state := { selected := some (selected - 1) } }
              else app
          | none => app)
    | .other => some app


inductive PathView
  | directory
  | fileText (s : String)
  | readError
  deriving DecidableEq, Repr


def selectedPath (dotfiles : List (List String)) (sel : Option Nat) :
    Option (List String) :=
  match sel with
  | some selected => dotfiles.get? selected
  | none => none


def previewContent (view : List String → PathView)
    (dotfiles : List (List String)) (sel : Option Nat) : String :=
  match selectedPath dotfiles sel with
  | some path =>
      match view path with
      | .directory => "This is a directory."
      | .fileText s => s
      | .readError => "Error reading file."
  | none => "No file selected."


def renderPathText (p : List String) : String := String.intercalate "/" p


structure Frame where
  listLabels : List String
  highlighted : Option Nat
  previewText : String
  deriving DecidableEq, Repr


def draw (view : List String → PathView) (app : App) : Frame :=
  { listLabels := app.dotfiles.map renderPathText
    highlighted := app.list_state.selected
    previewText := previewContent view app.dotfiles app.list_state.selected }


def iterate (view : List String → PathView) (app : App) (ev : LoopEvent) :
    Frame × Option App :=
  (draw view app, stepEvent app ev)


structure Tick where
  drawErr : Option IoErrorKind
  event : LoopEvent
  deriving DecidableEq, Repr


inductive RunOutcome
  | running (app : App)
  | quitOk (app : App)
  | drawFailed (e : IoErrorKind) (app : App)
  deriving DecidableEq, Repr


def RunOutcome.finalApp : RunOutcome → App
  | .running a => a
  | .quitOk a => a
  | .drawFailed _ a => a


def runTrace (app : App) : List Tick → RunOutcome
  | [] => .running app
  | t :: rest =>
      match t.drawErr with
      | some e => .drawFailed e app
      | none =>
          match stepEvent app t.event with
          | none => .quitOk app
          | some app2 => runTrace app2 rest


structure MainEnv where
  initResult : Except IoErrorKind Unit
  fs : Fs
  runResult : Except IoErrorKind Unit
  restoreResult : Except IoErrorKind Unit


def mainModel (env : MainEnv) : Bool × Except IoErrorKind Unit :=
  match env.initResult with
  | .error e => (false, .error e)
  | .ok _ =>
      match App.new env.fs with
      | .error e => (false, .error e)
      | .ok _ =>
          (true,
            match env.restoreResult with
            | .error e => .error e
            | .ok _ => env.runResult)


def applyEvents (app : App) : List LoopEvent → Option App
  | [] => some app
  | e :: rest =>
      match stepEvent app e with
      | none => none
      | some app2 => applyEvents app2 rest


def entriesTwo : List (List String) := [["h", ".a"], ["h", ".b"]]


def appTwo : App := ⟨entriesTwo, ⟨some 0⟩⟩


def dotfilesPrev : List (List String) := [["h", "dir"], ["h", "file"], ["h", "gone"]]


def viewPrev : List String → PathView := fun p =>
  if p = ["h", "dir"] then PathView.directory
  else if p = ["h", "file"] then PathView.fileText "hello\n"
  else PathView.readError


def fsEmpty : Fs := ⟨some "/home/user", []⟩


def appEmpty : App := ⟨[], ⟨some 0⟩⟩


/-! ## Lemmas and claim theorems -/

@[simp] theorem Dirent.name_file (n : String) (ok : Bool) :
    (Dirent.file n ok).name = n := rfl


@[simp] theorem Dirent.name_dir (n : String) (ok : Bool) (cs : List Dirent) :
    (Dirent.dir n ok cs).name = n := rfl


@[simp] theorem Dirent.ok_file (n : String) (o : Bool) :
    (Dirent.file n o).ok = o := rfl


@[simp] theorem Dirent.ok_dir (n : String) (o : Bool) (cs : List Dirent) :
    (Dirent.dir n o cs).ok = o := rfl


theorem configEntries_eq (home : String) (cs : List Dirent) :
    configEntries home cs =
      match cs.find? (fun e => e.name == ".config") with
      | some (Dirent.dir n true gcs) => walkList [home, n] gcs
      | _ => [] := rfl


theorem walkList_append (pre : List String) (l1 l2 : List Dirent) :
    walkList pre (l1 ++ l2) = walkList pre l1 ++ walkList pre l2 := by
  induction l1 generalizing pre with
  | nil => simp [walkList]
  | cons e rest ih =>
      cases e with
      | file n ok => cases ok <;> simp [walkList, ih]
      | dir n ok cs => cases ok <;> simp [walkList, ih]


theorem walkList_pruneErr (pre : List String) (cs : List Dirent) :
    walkList pre (pruneErr cs) = walkList pre cs := by
  induction cs using pruneErr.induct generalizing pre with
  | case1 => simp [pruneErr, walkList]
  | case2 n ok rest ih =>
      cases ok <;> simp [pruneErr, walkList, walkList_append, ih]
  | case3 n ok cs rest ih1 ih2 =>
      cases ok <;> simp [pruneErr, walkList, walkList_append, ih1, ih2]


theorem pruneErr_allOk (cs : List Dirent) : allOkList (pruneErr cs) = true := by
  induction cs using pruneErr.induct with
  | case1 => simp [pruneErr, allOkList]
  | case2 n ok rest ih => cases ok <;> simp_all [pruneErr, allOkList]
  | case3 n ok cs rest ih1 ih2 => cases ok <;> simp_all [pruneErr, allOkList]


theorem walkList_eq_descList (pre : List String) (cs : List Dirent)
    (h : allOkList cs = true) : walkList pre cs = descList pre cs := by
  induction cs using pruneErr.induct generalizing pre with
  | case1 => simp [walkList, descList]
  | case2 n ok rest ih =>
      simp only [allOkList, Bool.and_eq_true] at h
      simp [walkList, descList, h.1, ih pre h.2]
  | case3 n ok cs rest ih1 ih2 =>
      simp only [allOkList, Bool.and_eq_true] at h
      simp [walkList, descList, h.1.1, ih1 (pre ++ [n]) h.1.2, ih2 pre h.2]


theorem deepOk_of_mem_allOkList (e : Dirent) (cs : List Dirent)
    (hmem : e ∈ cs) (h : allOkList cs = true) : e.deepOk = true := by
  induction cs with
  | nil => cases hmem
  | cons a rest ih =>
      rcases List.mem_cons.mp hmem with rfl | hmem2
      · cases e with
        | file n ok => simp_all [allOkList, Dirent.deepOk]
        | dir n ok gcs => simp_all [allOkList, Dirent.deepOk]
      · cases a with
        | file n ok => simp_all [allOkList]
        | dir n ok gcs => simp_all [allOkList]


theorem filter_ok_of_allOkList (cs : List Dirent) (h : allOkList cs = true) :
    cs.filter (fun e => e.ok) = cs := by
  induction cs with
  | nil => rfl
  | cons a rest ih =>
      cases a with
      | file n ok => simp_all [allOkList, List.filter, Dirent.ok]
      | dir n ok gcs => simp_all [allOkList, List.filter, Dirent.ok]


theorem homeDotfiles_eq_spec (home : String) (cs : List Dirent)
    (h : allOkList cs = true) :
    homeDotfiles home cs = specDotChildren home cs := by
  unfold homeDotfiles specDotChildren
  rw [filter_ok_of_allOkList cs h]


theorem configEntries_eq_spec (home : String) (cs : List Dirent)
    (h : allOkList cs = true) :
    configEntries home cs = specConfigDescendants home cs := by
  unfold configEntries specConfigDescendants
  cases hfind : cs.find? (fun e => e.name == ".config") with
  | none => rfl
  | some e =>
      cases e with
      | file n ok => rfl
      | dir n ok gcs =>
          have hmem := List.mem_of_find?_eq_some hfind
          have hdeep := deepOk_of_mem_allOkList _ _ hmem h
          simp only [Dirent.deepOk, Bool.and_eq_true] at hdeep
          rw [hdeep.1]
          exact walkList_eq_descList _ _ hdeep.2


theorem find_config_pruneErr_none (cs : List Dirent)
    (h : ∀ e ∈ cs, e.name ≠ ".config") :
    (pruneErr cs).find? (fun e => e.name == ".config") = none := by
  induction cs using pruneErr.induct with
  | case1 => simp [pruneErr]
  | case2 n ok rest ih =>
      have hn : n ≠ ".config" := by
        simpa using h (Dirent.file n ok) (List.mem_cons_self _ _)
      have hrest := fun e he => h e (List.mem_cons_of_mem _ he)
      cases ok <;> simp [pruneErr, List.find?_cons, hn, ih hrest]
  | case3 n ok cs rest ih1 ih2 =>
      have hn : n ≠ ".config" := by
        simpa using h (Dirent.dir n ok cs) (List.mem_cons_self _ _)
      have hrest := fun e he => h e (List.mem_cons_of_mem _ he)
      cases ok <;> simp [pruneErr, List.find?_cons, hn, ih2 hrest]


theorem rest_no_config (a : Dirent) (rest : List Dirent)
    (ha : a.name = ".config")
    (h : (List.filter (fun e => e.name == ".config") (a :: rest)).length ≤ 1) :
    ∀ e ∈ rest, e.name ≠ ".config" := by
  intro e he hc
  rw [List.filter_cons] at h
  simp only [ha, beq_self_eq_true, if_pos, List.length_cons] at h
  have h0 : (List.filter (fun e => e.name == ".config") rest).length = 0 := by
    omega
  have hnil : List.filter (fun e => e.name == ".config") rest = [] :=
    List.eq_nil_of_length_eq_zero h0
  have := List.filter_eq_nil_iff.mp hnil e he
  simp [hc] at this


theorem configEntries_pruneErr (home : String) (cs : List Dirent)
    (h : (List.filter (fun e => e.name == ".config") cs).length ≤ 1) :
    configEntries home (pruneErr cs) = configEntries home cs := by
  induction cs using pruneErr.induct with
  | case1 => simp [pruneErr]
  | case2 n ok rest ih =>
      by_cases hb : n = ".config"
      · have hrest := rest_no_config (Dirent.file n ok) rest (by simpa) h
        have hnone := find_config_pruneErr_none rest hrest
        cases ok <;>
          simp [configEntries_eq, pruneErr, List.find?_cons, hb, hnone]
      · have h2 : (List.filter (fun e => e.name == ".config") rest).length ≤ 1 := by
          rw [List.filter_cons] at h
          simpa [hb] using h
        cases ok <;>
          simpa [configEntries_eq, pruneErr, List.find?_cons, hb] using ih h2
  | case3 n ok cs rest ih1 ih2 =>
      by_cases hb : n = ".config"
      · have hrest := rest_no_config (Dirent.dir n ok cs) rest (by simpa) h
        have hnone := find_config_pruneErr_none rest hrest
        cases ok <;>
          simp [configEntries_eq, pruneErr, List.find?_cons, hb, hnone,
            walkList_pruneErr]
      · have h2 : (List.filter (fun e => e.name == ".config") rest).length ≤ 1 := by
          rw [List.filter_cons] at h
          simpa [hb] using h
        cases ok <;>
          simpa [configEntries_eq, pruneErr, List.find?_cons, hb] using ih2 h2


theorem homeDotfiles_pruneErr (home : String) (cs : List Dirent) :
    homeDotfiles home (pruneErr cs) = homeDotfiles home cs := by
  induction cs using pruneErr.induct with
  | case1 => simp [pruneErr]
  | case2 n ok rest ih =>
      cases ok <;> cases hs : startsWithDot n <;>
        simp_all [homeDotfiles, pruneErr, List.filter_cons]
  | case3 n ok cs rest ih1 ih2 =>
      cases ok <;> cases hs : startsWithDot n <;>
        simp_all [homeDotfiles, pruneErr, List.filter_cons]


theorem find_dotfiles_matches_spec_phases (fs : Fs) (home : String)
    (hhome : fs.homeEnv = some home)
    (hok : allOkList fs.homeChildren = true) :
    find_dotfiles fs =
      Except.ok (specDotChildren home fs.homeChildren ++
        specConfigDescendants home fs.homeChildren) := by
  simp only [find_dotfiles, hhome]
  rw [homeDotfiles_eq_spec home _ hok, configEntries_eq_spec home _ hok]


theorem find_dotfiles_matches_spec_phases_witness :
    (fsScenario.homeEnv = some "/home/user" ∧
      allOkList fsScenario.homeChildren = true) ∧
    find_dotfiles fsScenario =
      Except.ok (specDotChildren "/home/user" fsScenario.homeChildren ++
        specConfigDescendants "/home/user" fsScenario.homeChildren) ∧
    specDotChildren "/home/user" fsScenario.homeChildren =
      [["/home/user", ".bashrc"], ["/home/user", ".config"]] ∧
    specConfigDescendants "/home/user" fsScenario.homeChildren =
      [["/home/user", ".config", "app"],
        ["/home/user", ".config", "app", "config.toml"]] :=
  ⟨⟨rfl, by simp [fsScenario, allOkList]⟩,
    find_dotfiles_matches_spec_phases fsScenario "/home/user" rfl
      (by simp [fsScenario, allOkList]),
    by decide,
    by simp [fsScenario, specConfigDescendants, descList]⟩


theorem find_dotfiles_error_contract (fs : Fs)
    (hone : (List.filter (fun e => e.name == ".config") fs.homeChildren).length ≤ 1) :
    (∀ e, find_dotfiles fs = Except.error e ↔
      (fs.homeEnv = none ∧ e = IoErrorKind.notFound)) ∧
    (∀ home, fs.homeEnv = some home →
      ∃ l, find_dotfiles fs = Except.ok l ∧
        find_dotfiles ⟨some home, pruneErr fs.homeChildren⟩ = Except.ok l ∧
        allOkList (pruneErr fs.homeChildren) = true) := by
  constructor
  · intro e
    cases henv : fs.homeEnv <;> simp [find_dotfiles, henv]
    exact eq_comm
  · intro home hhome
    refine ⟨homeDotfiles home fs.homeChildren ++ configEntries home fs.homeChildren,
      by simp [find_dotfiles, hhome], ?_, pruneErr_allOk _⟩
    simp only [find_dotfiles]
    rw [homeDotfiles_pruneErr, configEntries_pruneErr home _ hone]


theorem find_dotfiles_error_contract_witness :
    (List.filter (fun e => e.name == ".config") fsWithErrors.homeChildren).length ≤ 1 ∧
    ((∀ e, find_dotfiles fsWithErrors = Except.error e ↔
      (fsWithErrors.homeEnv = none ∧ e = IoErrorKind.notFound)) ∧
    (∀ home, fsWithErrors.homeEnv = some home →
      ∃ l, find_dotfiles fsWithErrors = Except.ok l ∧
        find_dotfiles ⟨some home, pruneErr fsWithErrors.homeChildren⟩ = Except.ok l ∧
        allOkList (pruneErr fsWithErrors.homeChildren) = true)) :=
  ⟨by simp [fsWithErrors],
    find_dotfiles_error_contract fsWithErrors (by simp [fsWithErrors])⟩


theorem find_dotfiles_ok_without_config (fs : Fs) (home : String)
    (hhome : fs.homeEnv = some home)
    (hcfg : fs.homeChildren.find? (fun e => e.name == ".config") = none ∨
      ∃ gcs, fs.homeChildren.find? (fun e => e.name == ".config") =
        some (Dirent.dir ".config" false gcs)) :
    find_dotfiles fs = Except.ok (homeDotfiles home fs.homeChildren) := by
  have hcfge : configEntries home fs.homeChildren = [] := by
    rcases hcfg with h | ⟨gcs, h⟩ <;> rw [configEntries_eq, h]
  simp [find_dotfiles, hhome, hcfge]


theorem find_dotfiles_ok_without_config_witness :
    (fsNoConfig.homeEnv = some "/home/user" ∧
      fsNoConfig.homeChildren.find? (fun e => e.name == ".config") = none) ∧
    find_dotfiles fsNoConfig = Except.ok (homeDotfiles "/home/user" fsNoConfig.homeChildren) ∧
    homeDotfiles "/home/user" fsNoConfig.homeChildren = [["/home/user", ".bashrc"]] :=
  ⟨⟨rfl, by simp [fsNoConfig]⟩,
    find_dotfiles_ok_without_config fsNoConfig "/home/user" rfl
      (Or.inl (by simp [fsNoConfig])),
    by decide⟩


theorem USIZE_eq : USIZE = 18446744073709551616 := by norm_num [USIZE]


theorem usizeSub1_eq (n : Nat) (h1 : 1 ≤ n) (h2 : n ≤ USIZE) :
    usizeSub1 n = n - 1 := by
  unfold usizeSub1
  rw [USIZE_eq] at h2 ⊢
  omega


theorem stepEvent_none_iff (app : App) (ev : LoopEvent) :
    stepEvent app ev = none ↔ ev = LoopEvent.key (KeyCode.char 'q') := by
  cases ev with
  | timeout => simp [stepEvent]
  | nonKey => simp [stepEvent]
  | key k =>
      cases k with
      | char c => by_cases hc : c = 'q' <;> simp [stepEvent, hc]
      | down => cases app.list_state.selected <;> simp [stepEvent]
      | up => cases app.list_state.selected <;> simp [stepEvent]
      | other => simp [stepEvent]


theorem stepEvent_dotfiles (app : App) (ev : LoopEvent) (app2 : App)
    (h : stepEvent app ev = some app2) : app2.dotfiles = app.dotfiles := by
  cases ev with
  | timeout => simp [stepEvent] at h; rw [← h]
  | nonKey => simp [stepEvent] at h; rw [← h]
  | key k =>
      cases k with
      | char c =>
          by_cases hc : c = 'q'
          · simp [stepEvent, hc] at h
          · simp [stepEvent, hc] at h; rw [← h]
      | down =>
          cases hsel : app.list_state.selected with
          | none => simp [stepEvent, hsel] at h; rw [← h]
          | some i =>
              simp only [stepEvent, hsel, Option.some.injEq] at h
              split at h <;> rw [← h]
      | up =>
          cases hsel : app.list_state.selected with
          | none => simp [stepEvent, hsel] at h; rw [← h]
          | some i =>
              simp only [stepEvent, hsel, Option.some.injEq] at h
              split at h <;> rw [← h]
      | other => simp [stepEvent] at h; rw [← h]


theorem stepEvent_sel_change (app : App) (ev : LoopEvent) (app2 : App)
    (h : stepEvent app ev = some app2) (hne : app2.list_state ≠ app.list_state) :
    ev = LoopEvent.key KeyCode.down ∨ ev = LoopEvent.key KeyCode.up := by
  cases ev with
  | timeout => simp [stepEvent] at h; simp [← h] at hne
  | nonKey => simp [stepEvent] at h; simp [← h] at hne
  | key k =>
      cases k with
      | char c =>
          by_cases hc : c = 'q'
          · simp [stepEvent, hc] at h
          · simp [stepEvent, hc] at h; simp [← h] at hne
      | down => exact Or.inl rfl
      | up => exact Or.inr rfl
      | other => simp [stepEvent] at h; simp [← h] at hne


theorem stepEvent_other_id (app : App) (k : KeyCode)
    (hq : k ≠ KeyCode.char 'q') (hd : k ≠ KeyCode.down) (hu : k ≠ KeyCode.up) :
    stepEvent app (LoopEvent.key k) = some app := by
  cases k with
  | char c =>
      have hc : c ≠ 'q' := fun hcq => hq (by rw [hcq])
      simp [stepEvent, hc]
  | down => exact absurd rfl hd
  | up => exact absurd rfl hu
  | other => simp [stepEvent]


theorem runTrace_dotfiles (ticks : List Tick) (app : App) :
    (runTrace app ticks).finalApp.dotfiles = app.dotfiles := by
  induction ticks generalizing app with
  | nil => rfl
  | cons t rest ih =>
      cases hd : t.drawErr with
      | some e => simp [runTrace, hd, RunOutcome.finalApp]
      | none =>
          cases hs : stepEvent app t.event with
          | none => simp [runTrace, hd, hs, RunOutcome.finalApp]
          | some app2 =>
              have hdot := stepEvent_dotfiles app t.event app2 hs
              simp [runTrace, hd, hs, ih app2, hdot]


theorem runTrace_quit_mem (ticks : List Tick) (app app2 : App)
    (h : runTrace app ticks = RunOutcome.quitOk app2) :
    LoopEvent.key (KeyCode.char 'q') ∈ ticks.map Tick.event := by
  induction ticks generalizing app with
  | nil => simp [runTrace] at h
  | cons t rest ih =>
      cases hd : t.drawErr with
      | some e => simp [runTrace, hd] at h
      | none =>
          cases hs : stepEvent app t.event with
          | none =>
              have hq := (stepEvent_none_iff app t.event).mp hs
              simp [hq]
          | some app3 =>
              simp only [runTrace, hd, hs] at h
              exact List.mem_cons_of_mem _ (ih app3 h)


theorem stepEvent_updown (app : App) (k : KeyCode) (i : Nat)
    (hk : k = KeyCode.up ∨ k = KeyCode.down)
    (hlen : app.dotfiles.length ≤ USIZE)
    (hsel : app.list_state.selected = some i) (hi : i < app.dotfiles.length) :
    ∃ app2 j, stepEvent app (LoopEvent.key k) = some app2 ∧
      app2.dotfiles = app.dotfiles ∧
      app2.list_state.selected = some j ∧ j < app.dotfiles.length := by
  rcases hk with rfl | rfl
  · by_cases h0 : i > 0
    · exact ⟨{ app with list_state := ⟨some (i - 1)⟩ }, i - 1,
        by simp [stepEvent, hsel, h0], rfl, rfl, by omega⟩
    · exact ⟨app, i, by simp [stepEvent, hsel, h0], rfl, hsel, hi⟩
  · by_cases hd : i < usizeSub1 app.dotfiles.length
    · have hs1 := usizeSub1_eq app.dotfiles.length (by omega) hlen
      rw [hs1] at hd
      have hmod : (i + 1) % USIZE = i + 1 := by
        rw [USIZE_eq] at hlen ⊢
        exact Nat.mod_eq_of_lt (by omega)
      refine ⟨{ app with list_state := ⟨some ((i + 1) % USIZE)⟩ }, (i + 1) % USIZE,
        ?_, rfl, rfl, ?_⟩
      · rw [← hs1] at hd
        simp [stepEvent, hsel, hd]
      · rw [hmod]; omega
    · exact ⟨app, i, by simp [stepEvent, hsel, hd], rfl, hsel, hi⟩


theorem applyEvents_nav (ks : List KeyCode)
    (hks : ∀ k ∈ ks, k = KeyCode.up ∨ k = KeyCode.down)
    (app : App) (i : Nat)
    (hlen : app.dotfiles.length ≤ USIZE)
    (hsel : app.list_state.selected = some i)
    (hi : i < app.dotfiles.length) :
    ∃ app2 j, applyEvents app (ks.map LoopEvent.key) = some app2 ∧
      app2.dotfiles = app.dotfiles ∧
      app2.list_state.selected = some j ∧ j < app.dotfiles.length := by
  induction ks generalizing app i with
  | nil => exact ⟨app, i, rfl, rfl, hsel, hi⟩
  | cons k ks ih =>
      obtain ⟨app2, j, hstep, hdot, hsel2, hj⟩ :=
        stepEvent_updown app k i (hks k (List.mem_cons_self _ _)) hlen hsel hi
      obtain ⟨app3, j3, happly, hdot3, hsel3, hj3⟩ :=
        ih (fun k hk => hks k (List.mem_cons_of_mem _ hk)) app2 j
          (hdot ▸ hlen) hsel2 (hdot ▸ hj)
      refine ⟨app3, j3, ?_, by rw [hdot3, hdot], hsel3, hdot ▸ hj3⟩
      simp [applyEvents, hstep, happly]


theorem selection_clamped_in_bounds (entries : List (List String))
    (hne : entries ≠ []) (hlen : entries.length ≤ USIZE) :
    (∀ ks : List KeyCode, (∀ k ∈ ks, k = KeyCode.up ∨ k = KeyCode.down) →
      ∃ app2 j, applyEvents ⟨entries, ⟨some 0⟩⟩ (ks.map LoopEvent.key) = some app2 ∧
        app2.dotfiles = entries ∧
        app2.list_state.selected = some j ∧ j < entries.length) ∧
    (∀ i, i < entries.length →
      stepEvent ⟨entries, ⟨some i⟩⟩ (LoopEvent.key KeyCode.down) =
        some ⟨entries, ⟨some (if i < entries.length - 1 then i + 1 else i)⟩⟩) ∧
    (∀ i, i < entries.length →
      stepEvent ⟨entries, ⟨some i⟩⟩ (LoopEvent.key KeyCode.up) =
        some ⟨entries, ⟨some (if 0 < i then i - 1 else i)⟩⟩) := by
  have hpos : 0 < entries.length := List.length_pos.mpr hne
  refine ⟨?_, ?_, ?_⟩
  · intro ks hks
    exact applyEvents_nav ks hks ⟨entries, ⟨some 0⟩⟩ 0 hlen rfl hpos
  · intro i hi
    have hs1 := usizeSub1_eq entries.length (by omega) hlen
    by_cases hd : i < entries.length - 1
    · have hmod : (i + 1) % USIZE = i + 1 := by
        rw [USIZE_eq] at hlen ⊢
        exact Nat.mod_eq_of_lt (by omega)
      simp [stepEvent, hs1, hd, hmod]
    · simp [stepEvent, hs1, hd]
  · intro i hi
    by_cases h0 : 0 < i <;> simp [stepEvent, h0]


theorem selection_clamped_in_bounds_witness :
    (entriesTwo ≠ [] ∧ entriesTwo.length ≤ USIZE) ∧
    (∃ app2 j, applyEvents ⟨entriesTwo, ⟨some 0⟩⟩
        ([KeyCode.down, KeyCode.down, KeyCode.up].map LoopEvent.key) = some app2 ∧
      app2.dotfiles = entriesTwo ∧
      app2.list_state.selected = some j ∧ j < entriesTwo.length) ∧
    applyEvents ⟨entriesTwo, ⟨some 0⟩⟩
        ([KeyCode.down, KeyCode.down, KeyCode.up].map LoopEvent.key) =
      some ⟨entriesTwo, ⟨some 0⟩⟩ :=
  ⟨⟨by decide, by decide⟩,
    (selection_clamped_in_bounds entriesTwo (by decide) (by decide)).1
      [KeyCode.down, KeyCode.down, KeyCode.up] (by decide),
    by decide⟩


theorem quit_only_on_q (app : App) :
    (∀ rest, runTrace app (⟨none, LoopEvent.key (KeyCode.char 'q')⟩ :: rest) =
      RunOutcome.quitOk app) ∧
    (∀ ev, ev ≠ LoopEvent.key (KeyCode.char 'q') →
      ∃ app2, stepEvent app ev = some app2) ∧
    (∀ ticks app2, runTrace app ticks = RunOutcome.quitOk app2 →
      LoopEvent.key (KeyCode.char 'q') ∈ ticks.map Tick.event) := by
  refine ⟨?_, ?_, ?_⟩
  · intro rest
    simp [runTrace, stepEvent]
  · intro ev hev
    cases hs : stepEvent app ev with
    | none => exact absurd ((stepEvent_none_iff app ev).mp hs) hev
    | some app2 => exact ⟨app2, rfl⟩
  · intro ticks app2 h
    exact runTrace_quit_mem ticks app app2 h


theorem quit_only_on_q_witness :
    runTrace appTwo [⟨none, LoopEvent.key (KeyCode.char 'q')⟩] =
      RunOutcome.quitOk appTwo ∧
    (∃ app2, stepEvent appTwo LoopEvent.timeout = some app2) ∧
    LoopEvent.key (KeyCode.char 'q') ∈
      (([⟨none, LoopEvent.timeout⟩, ⟨none, LoopEvent.key (KeyCode.char 'q')⟩] :
        List Tick).map Tick.event) :=
  ⟨(quit_only_on_q appTwo).1 [],
    (quit_only_on_q appTwo).2.1 LoopEvent.timeout (by decide),
    (quit_only_on_q appTwo).2.2
      [⟨none, LoopEvent.timeout⟩, ⟨none, LoopEvent.key (KeyCode.char 'q')⟩]
      appTwo (by decide)⟩


theorem loop_iteration_frame_effect (app : App) :
    (∀ ev app2, stepEvent app ev = some app2 → app2.dotfiles = app.dotfiles) ∧
    (∀ ticks, (runTrace app ticks).finalApp.dotfiles = app.dotfiles) ∧
    (∀ view view2 ev, (iterate view app ev).2 = (iterate view2 app ev).2 ∧
      (iterate view app ev).2 = stepEvent app ev) ∧
    (∀ ev app2, stepEvent app ev = some app2 →
      app2.list_state ≠ app.list_state →
      ev = LoopEvent.key KeyCode.down ∨ ev = LoopEvent.key KeyCode.up) ∧
    (∀ k, k ≠ KeyCode.char 'q' → k ≠ KeyCode.down → k ≠ KeyCode.up →
      stepEvent app (LoopEvent.key k) = some app) ∧
    stepEvent app LoopEvent.timeout = some app ∧
    stepEvent app LoopEvent.nonKey = some app :=
  ⟨fun ev app2 h => stepEvent_dotfiles app ev app2 h,
    fun ticks => runTrace_dotfiles ticks app,
    fun _ _ _ => ⟨rfl, rfl⟩,
    fun ev app2 h hne => stepEvent_sel_change app ev app2 h hne,
    fun k hq hd hu => stepEvent_other_id app k hq hd hu,
    rfl, rfl⟩


theorem loop_iteration_frame_effect_witness :
    stepEvent appTwo (LoopEvent.key KeyCode.other) = some appTwo ∧
    (runTrace appTwo [⟨none, LoopEvent.key KeyCode.down⟩]).finalApp.dotfiles =
      appTwo.dotfiles ∧
    stepEvent appTwo LoopEvent.timeout = some appTwo :=
  ⟨(loop_iteration_frame_effect appTwo).2.2.2.2.1 KeyCode.other (by decide)
      (by decide) (by decide),
    (loop_iteration_frame_effect appTwo).2.1 [⟨none, LoopEvent.key KeyCode.down⟩],
    (loop_iteration_frame_effect appTwo).2.2.2.2.2.1⟩


theorem preview_content_cases (view : List String → PathView)
    (dotfiles : List (List String)) (i : Nat) (p : List String)
    (hget : dotfiles.get? i = some p) :
    (view p = PathView.directory →
      previewContent view dotfiles (some i) = "This is a directory.") ∧
    (∀ s, view p = PathView.fileText s →
      previewContent view dotfiles (some i) = s) ∧
    (view p = PathView.readError →
      previewContent view dotfiles (some i) = "Error reading file.") ∧
    (∀ (app : App) (rest : List Tick) (ev : LoopEvent),
      ev ≠ LoopEvent.key (KeyCode.char 'q') →
      ∃ app2, runTrace app (⟨none, ev⟩ :: rest) = runTrace app2 rest) := by
  refine ⟨?_, ?_, ?_, ?_⟩
  · intro hv
    simp only [previewContent, selectedPath, hget, hv]
  · intro s hv
    simp only [previewContent, selectedPath, hget, hv]
  · intro hv
    simp only [previewContent, selectedPath, hget, hv]
  · intro app rest ev hev
    cases hs : stepEvent app ev with
    | none => exact absurd ((stepEvent_none_iff app ev).mp hs) hev
    | some app2 => exact ⟨app2, by simp [runTrace, hs]⟩


theorem preview_content_cases_witness :
    dotfilesPrev.get? 1 = some ["h", "file"] ∧
    viewPrev ["h", "file"] = PathView.fileText "hello\n" ∧
    previewContent viewPrev dotfilesPrev (some 1) = "hello\n" :=
  ⟨by decide, by decide,
    (preview_content_cases viewPrev dotfilesPrev 1 ["h", "file"]
      (by decide)).2.1 "hello\n" (by decide)⟩


theorem preview_total_in_selection (view : List String → PathView)
    (dotfiles : List (List String)) :
    previewContent view dotfiles none = "No file selected." ∧
    ∀ i, dotfiles.length ≤ i →
      previewContent view dotfiles (some i) = "No file selected." := by
  refine ⟨rfl, ?_⟩
  intro i hi
  have hnone : dotfiles.get? i = none := List.get?_eq_none.mpr hi
  simp only [previewContent, selectedPath, hnone]


theorem preview_total_in_selection_witness :
    dotfilesPrev.length ≤ 5 ∧
    previewContent viewPrev dotfilesPrev none = "No file selected." ∧
    previewContent viewPrev dotfilesPrev (some 5) = "No file selected." :=
  ⟨by decide, (preview_total_in_selection viewPrev dotfilesPrev).1,
    (preview_total_in_selection viewPrev dotfilesPrev).2 5 (by decide)⟩


theorem empty_entries_down_underflows :
    App.new fsEmpty = Except.ok appEmpty ∧
    appEmpty.list_state.selected = some 0 ∧
    usizeSub1 appEmpty.dotfiles.length = USIZE - 1 ∧
    stepEvent appEmpty (LoopEvent.key KeyCode.down) = some ⟨[], ⟨some 1⟩⟩ ∧
    stepEvent appEmpty (LoopEvent.key KeyCode.up) = some appEmpty ∧
    previewContent (fun _ => PathView.readError) appEmpty.dotfiles
      appEmpty.list_state.selected = "No file selected." :=
  ⟨rfl, rfl, by decide, by decide, by decide, rfl⟩


theorem main_skips_restore_on_missing_home :
    mainModel ⟨Except.ok (), ⟨none, []⟩, Except.ok (), Except.ok ()⟩ =
      (false, Except.error IoErrorKind.notFound) ∧
    mainModel ⟨Except.ok (), fsEmpty, Except.ok (), Except.ok ()⟩ =
      (true, Except.ok ()) ∧
    mainModel ⟨Except.ok (), fsEmpty, Except.error IoErrorKind.other, Except.ok ()⟩ =
      (true, Except.error IoErrorKind.other) ∧
    mainModel ⟨Except.error IoErrorKind.other, ⟨none, []⟩, Except.ok (), Except.ok ()⟩ =
      (false, Except.error IoErrorKind.other) :=
  ⟨rfl, rfl, rfl, rfl⟩


end GithubTui
